import Mathlib

/-!
Scoring core of the employability self-assessment tool (`src/main.js`).

A shallow embedding of the methods `calculateScores`, `getScoreLevel`,
`getScoreRange` and `getPersonalizedSuggestions` of the class
`AssessmentSystem`.

Conventions of the embedding:

* A JavaScript number is a `JSNum`: an exact rational, or one of the three
  special values `NaN`, `+Infinity`, `-Infinity`.  Rounding error and overflow
  of IEEE doubles are not modelled, and `-0` is identified with `0`.
* A plain JavaScript object is the list of its own entries in insertion order
  (what `Object.entries` returns).  Of the prototype chain only the inherited
  setter `__proto__` is modelled: an assignment to that key adds no own
  property.
* `undefined` is `none`.
* A thrown exception is `Except.error`.
-/

namespace AssessmentSystem

/-! ## JavaScript numbers -/

/-- A JavaScript number: a finite value or one of the special values. -/
inductive JSNum where
  | fin (q : ℚ)
  | nan
  | pinf
  | ninf
deriving DecidableEq

namespace JSNum

/-- The infinity whose sign is that of `q` (`NaN` for `q = 0`). -/
def infOfSign (q : ℚ) : JSNum :=
  if 0 < q then pinf else if q < 0 then ninf else nan

/-- The operator `+` on numbers. -/
def add : JSNum → JSNum → JSNum
  | fin a, fin b => fin (a + b)
  | nan, _ => nan
  | _, nan => nan
  | pinf, ninf => nan
  | ninf, pinf => nan
  | pinf, _ => pinf
  | ninf, _ => ninf
  | fin _, pinf => pinf
  | fin _, ninf => ninf

/-- The operator `*` on numbers. -/
def mul : JSNum → JSNum → JSNum
  | fin a, fin b => fin (a * b)
  | nan, _ => nan
  | _, nan => nan
  | pinf, fin b => infOfSign b
  | ninf, fin b => infOfSign (-b)
  | fin a, pinf => infOfSign a
  | fin a, ninf => infOfSign (-a)
  | pinf, pinf => pinf
  | ninf, ninf => pinf
  | pinf, ninf => ninf
  | ninf, pinf => ninf

/-- The operator `/` on numbers; a zero divisor is `+0`. -/
def div : JSNum → JSNum → JSNum
  | fin a, fin b => if b = 0 then infOfSign a else fin (a / b)
  | nan, _ => nan
  | _, nan => nan
  | fin _, pinf => fin 0
  | fin _, ninf => fin 0
  | pinf, fin b => if b < 0 then ninf else pinf
  | ninf, fin b => if b < 0 then pinf else ninf
  | pinf, pinf => nan
  | pinf, ninf => nan
  | ninf, pinf => nan
  | ninf, ninf => nan

/-- The operator `>=` on numbers; every comparison with `NaN` is false. -/
def ge : JSNum → JSNum → Bool
  | fin a, fin b => decide (b ≤ a)
  | nan, _ => false
  | _, nan => false
  | pinf, _ => true
  | _, ninf => true
  | fin _, pinf => false
  | ninf, fin _ => false
  | ninf, pinf => false

/-- The function `Math.floor`. -/
def floor : JSNum → JSNum
  | fin q => fin (⌊q⌋ : ℤ)
  | x => x

/-- The function `Math.round`: the nearest integer, a half going up. -/
def round : JSNum → JSNum
  | fin q => fin (⌊q + 1 / 2⌋ : ℤ)
  | x => x

/-- The function `Math.min` of two numbers. -/
def min : JSNum → JSNum → JSNum
  | nan, _ => nan
  | _, nan => nan
  | ninf, _ => ninf
  | _, ninf => ninf
  | pinf, y => y
  | x, pinf => x
  | fin a, fin b => fin (if a ≤ b then a else b)

end JSNum

/-! ## JavaScript objects and arrays -/

/-- The property read `o[k]` on a plain object given by its entries. -/
def objGet {α : Type} (o : List (String × α)) (k : String) : Option α :=
  match o with
  | [] => none
  | (k', v) :: rest => if k' = k then some v else objGet rest k

/-- The write of the own property `k` of `o`: an existing key keeps its place,
a new key goes last. -/
def objSet {α : Type} (o : List (String × α)) (k : String) (v : α) : List (String × α) :=
  match o with
  | [] => [(k, v)]
  | (k', v') :: rest => if k' = k then (k', v) :: rest else (k', v') :: objSet rest k v

/-- The assignment `o[k] = v` on a plain object: the key `__proto__` goes to
the setter inherited from `Object.prototype` and adds no own property; every
other key is written as an own property. -/
def objAssign {α : Type} (o : List (String × α)) (k : String) (v : α) : List (String × α) :=
  if k = "__proto__" then o else objSet o k v

/-- The keys of an object, in order. -/
def objKeys {α : Type} (o : List (String × α)) : List String :=
  o.map Prod.fst

/-- The property key a value is converted to when used as an index. -/
def propKey : Option String → String
  | some s => s
  | none => "undefined"

/-- The element read `xs[i]` of an array where `i` is an answer (an integer or
`undefined`): `undefined` unless `i` is an index of the array. -/
def arrayGet {α : Type} (xs : List α) : Option ℤ → Option α
  | some (Int.ofNat n) => xs[n]?
  | _ => none

/-- The element read `xs[i]` of an array where `i` is a number: `undefined`
unless `i` is a non-negative integer below the length. -/
def arrayGetNum {α : Type} (xs : List α) : JSNum → Option α
  | JSNum.fin q => if q.den = 1 ∧ 0 ≤ q.num then xs[q.num.toNat]? else none
  | _ => none

/-! ## Data model -/

/-- One option of a question; `scores` is `Object.entries(option.scores)`. -/
structure AnswerOption where
  scores : List (String × ℚ)

/-- One question of the bank (`questions.json`). -/
structure Question where
  module : String
  weight : ℚ
  options : List AnswerOption

/-- The answers object: `answers i` is `answers[i]`. -/
abbrev AnswerSet := ℕ → Option ℤ

/-- The accumulator `{ score, maxScore }` of one module. -/
structure ModuleAcc where
  score : ℚ
  maxScore : ℚ
deriving DecidableEq

/-- The value returned by `calculateScores`. -/
structure Result where
  moduleScores : List (String × JSNum)
  totalScore : JSNum
  answers : AnswerSet

/-- Exceptions the scoring code can throw. -/
inductive JSError where
  | typeError
deriving DecidableEq

/-- The five modules, in the order of the object literal. -/
def modules : List String :=
  ["创造力", "技术能力", "任务理解与执行", "社交与应变", "问题拆解与分析"]

/-- The initial `moduleScores` object of `calculateScores`. -/
def initialModuleScores : List (String × ModuleAcc) :=
  [("创造力", ⟨0, 0⟩), ("技术能力", ⟨0, 0⟩), ("任务理解与执行", ⟨0, 0⟩),
   ("社交与应变", ⟨0, 0⟩), ("问题拆解与分析", ⟨0, 0⟩)]

/-- The object `weights` of `calculateScores`. -/
def weights : List (String × ℚ) :=
  [("创造力", 20 / 100), ("技术能力", 25 / 100), ("任务理解与执行", 20 / 100),
   ("社交与应变", 15 / 100), ("问题拆解与分析", 20 / 100)]

/-! ## calculateScores -/

/-- The body of the inner `forEach`: the guarded update of one module. -/
def addContribution (moduleScores : List (String × ModuleAcc)) (module : String)
    (score weight : ℚ) : List (String × ModuleAcc) :=
  match objGet moduleScores module with
  | some d => objSet moduleScores module ⟨d.score + score * weight, d.maxScore + weight⟩
  | none => moduleScores

/-- The inner `forEach` over the entries of the selected option's scores. -/
def addOption (moduleScores : List (String × ModuleAcc)) (scores : List (String × ℚ))
    (weight : ℚ) : List (String × ModuleAcc) :=
  scores.foldl (fun ms e => addContribution ms e.1 e.2 weight) moduleScores

/-- The body of the outer `forEach` for the question at `index`; reading
`.scores` of an `undefined` option throws a `TypeError`. -/
def scoreQuestion (answers : AnswerSet) (moduleScores : List (String × ModuleAcc))
    (question : Question) (index : ℕ) : Except JSError (List (String × ModuleAcc)) :=
  match arrayGet question.options (answers index) with
  | none => Except.error JSError.typeError
  | some selectedOption => Except.ok (addOption moduleScores selectedOption.scores question.weight)

/-- The outer `forEach` over the questions from position `index` on. -/
def forEachQuestion (answers : AnswerSet) :
    List Question → ℕ → List (String × ModuleAcc) → Except JSError (List (String × ModuleAcc))
  | [], _, moduleScores => Except.ok moduleScores
  | question :: rest, index, moduleScores =>
    match scoreQuestion answers moduleScores question index with
    | Except.error e => Except.error e
    | Except.ok ms => forEachQuestion answers rest (index + 1) ms

/-- The first phase of `calculateScores`: the per-module accumulators. -/
def aggregate (questions : List Question) (answers : AnswerSet) :
    Except JSError (List (String × ModuleAcc)) :=
  forEachQuestion answers questions 0 initialModuleScores

/-- The normalized score `(data.score / data.maxScore) * 5`. -/
def normalizeOne (data : ModuleAcc) : JSNum :=
  JSNum.mul (JSNum.div (JSNum.fin data.score) (JSNum.fin data.maxScore)) (JSNum.fin 5)

/-- The second phase: the object `normalizedScores`. -/
def normalizeScores (moduleScores : List (String × ModuleAcc)) : List (String × JSNum) :=
  moduleScores.foldl (fun ns e => objAssign ns e.1 (normalizeOne e.2)) []

/-- The value `weights[module]` as an operand of `*`; `undefined` becomes `NaN`. -/
def weightOf (module : String) : JSNum :=
  match objGet weights module with
  | some w => JSNum.fin w
  | none => JSNum.nan

/-- The summand `(score / 5) * 100 * weights[module]`. -/
def contribution (module : String) (score : JSNum) : JSNum :=
  JSNum.mul (JSNum.mul (JSNum.div score (JSNum.fin 5)) (JSNum.fin 100)) (weightOf module)

/-- The third phase: the unrounded `totalScore`, summed exactly.  The binary64
sum the code computes can differ from it in the last places; it is used only
for what survives that difference (bounds, `NaN` propagation, exact small
cases). -/
def sumTotal (normalizedScores : List (String × JSNum)) : JSNum :=
  normalizedScores.foldl (fun total e => JSNum.add total (contribution e.1 e.2)) (JSNum.fin 0)

/-- The method `calculateScores(answers)` with `this.questions = questions`. -/
def calculateScores (questions : List Question) (answers : AnswerSet) : Except JSError Result :=
  match aggregate questions answers with
  | Except.error e => Except.error e
  | Except.ok moduleScores =>
    let normalizedScores := normalizeScores moduleScores
    Except.ok
      { moduleScores := normalizedScores
        totalScore := JSNum.round (sumTotal normalizedScores)
        answers := answers }

/-! ## getScoreLevel, getScoreRange -/

/-- The method `getScoreLevel(score, maxScore)`. -/
def getScoreLevel (score maxScore : JSNum) : String :=
  let percentage := JSNum.mul (JSNum.div score maxScore) (JSNum.fin 100)
  if JSNum.ge percentage (JSNum.fin 80) then "专家"
  else if JSNum.ge percentage (JSNum.fin 60) then "高级"
  else if JSNum.ge percentage (JSNum.fin 40) then "中级"
  else if JSNum.ge percentage (JSNum.fin 20) then "入门"
  else "初级"

/-- The array `ranges` of `getScoreRange`. -/
def ranges (maxScore : JSNum) : List String :=
  if maxScore = JSNum.fin 100 then ["0-20", "21-40", "41-60", "61-80", "81-100"]
  else ["0-1", "1-2", "2-3", "3-4", "4-5"]

/-- The percentage `(score / maxScore) * 100` both methods start from. -/
def percentageOf (score maxScore : JSNum) : JSNum :=
  JSNum.mul (JSNum.div score maxScore) (JSNum.fin 100)

/-- The method `getScoreRange(score, maxScore)`; `none` is `undefined`. -/
def getScoreRange (score maxScore : JSNum) : Option String :=
  let percentage := JSNum.mul (JSNum.div score maxScore) (JSNum.fin 100)
  let rangeIndex := JSNum.min (JSNum.floor (JSNum.div percentage (JSNum.fin 20))) (JSNum.fin 4)
  arrayGetNum (ranges maxScore) rangeIndex

/-! ## getPersonalizedSuggestions -/

/-- The loaded `suggestions.json`; a missing section is `none`. -/
structure SuggestionTable (σ : Type) where
  totalScore : Option (List (String × σ))
  modules : Option (List (String × List (String × σ)))

/-- The value returned by `getPersonalizedSuggestions`. -/
structure Suggestions (σ : Type) where
  total : Option σ
  modules : List (String × Option σ)

/-- The lookup `this.suggestions.totalScore?.[range]`. -/
def totalSuggestion {σ : Type} (table : SuggestionTable σ) (range : Option String) : Option σ :=
  match table.totalScore with
  | none => none
  | some section_ => objGet section_ (propKey range)

/-- The lookup `this.suggestions.modules?.[module]?.[range]`. -/
def moduleSuggestion {σ : Type} (table : SuggestionTable σ) (module : String)
    (range : Option String) : Option σ :=
  match table.modules with
  | none => none
  | some section_ =>
    match objGet section_ module with
    | none => none
    | some entry => objGet entry (propKey range)

/-- The method `getPersonalizedSuggestions(results)` with
`this.suggestions = table`. -/
def getPersonalizedSuggestions {σ : Type} (table : SuggestionTable σ)
    (totalScore : JSNum) (moduleScores : List (String × JSNum)) : Suggestions σ :=
  let totalScoreRange := getScoreRange totalScore (JSNum.fin 100)
  { total := totalSuggestion table totalScoreRange
    modules := moduleScores.foldl
      (fun ms e =>
        objAssign ms e.1 (moduleSuggestion table e.1 (getScoreRange e.2 (JSNum.fin 5)))) [] }

/-! ## Example bank -/

/-- The one-question bank of the specification's example. -/
def exampleBank : List Question :=
  [{ module := "创造力", weight := 1,
     options := [⟨[("创造力", 5)]⟩, ⟨[("创造力", 1)]⟩] }]

/-- The accumulators of the example bank when option `0` is selected. -/
def exampleAccumulators : List (String × ModuleAcc) :=
  [("创造力", ⟨5, 1⟩), ("技术能力", ⟨0, 0⟩), ("任务理解与执行", ⟨0, 0⟩),
   ("社交与应变", ⟨0, 0⟩), ("问题拆解与分析", ⟨0, 0⟩)]

/-- The answer set selecting option `0` for every question. -/
def answerZero : AnswerSet := fun _ => some 0

/-- A one-question bank whose only option scores `5` for each of the five
modules. -/
def fullBank : List Question :=
  [{ module := "创造力", weight := 1,
     options := [⟨[("创造力", 5), ("技术能力", 5), ("任务理解与执行", 5), ("社交与应变", 5),
       ("问题拆解与分析", 5)]⟩] }]

/-- A one-question bank whose only option scores within `[0, 1]` for each of
the five modules. -/
def unitBank : List Question :=
  [{ module := "技术能力", weight := 2,
     options := [⟨[("创造力", 1), ("技术能力", 1 / 2), ("任务理解与执行", 0), ("社交与应变", 1),
       ("问题拆解与分析", 1 / 4)]⟩] }]

/-- Every accumulator has `0 ≤ score ≤ maxScore`. -/
def Bounded (ms : List (String × ModuleAcc)) : Prop :=
  ∀ m d, objGet ms m = some d → 0 ≤ d.score ∧ d.score ≤ d.maxScore

/-- The accumulators of `unitBank` when option `0` is selected. -/
def unitAccumulators : List (String × ModuleAcc) :=
  [("创造力", ⟨2, 2⟩), ("技术能力", ⟨1, 2⟩), ("任务理解与执行", ⟨0, 2⟩),
   ("社交与应变", ⟨2, 2⟩), ("问题拆解与分析", ⟨1 / 2, 2⟩)]

/-! ## The aggregation as the specification words it -/

/-- The score for module `m` in the score map of the option selected for the
question `p.2` at position `p.1`, when that map contains `m`. -/
def selectedScore (answers : AnswerSet) (m : String) (p : ℕ × Question) : Option ℚ :=
  match arrayGet p.2.options (answers p.1) with
  | some o => objGet o.scores m
  | none => none

/-- The sum of `score × weight` over the questions whose selected option's
score map contains `m`. -/
def specRaw (answers : AnswerSet) (m : String) (indexed : List (ℕ × Question)) : ℚ :=
  (indexed.filterMap (fun p => (selectedScore answers m p).map (fun s => s * p.2.weight))).sum

/-- The sum of the weights of the questions whose selected option's score map
contains `m`. -/
def specMax (answers : AnswerSet) (m : String) (indexed : List (ℕ × Question)) : ℚ :=
  (indexed.filterMap (fun p => (selectedScore answers m p).map (fun _ => p.2.weight))).sum

/-- The option selected for question `i`, when the answer is an index into the
question's options. -/
def selectedOption (questions : List Question) (answers : AnswerSet) (i : ℕ) :
    Option AnswerOption :=
  match questions[i]? with
  | some q => arrayGet q.options (answers i)
  | none => none

/-- The answer set selects an in-range option for every question. -/
def InRange (questions : List Question) (answers : AnswerSet) : Prop :=
  ∀ i, i < questions.length → (selectedOption questions answers i).isSome = true

/-- A suggestion table with a total-score section holding one bucket and a
modules section holding one module with one bucket. -/
def exampleTable : SuggestionTable String :=
  { totalScore := some [("81-100", "keep going")]
    modules := some [("创造力", [("4-5", "excellent")])] }

/-- The labels `getScoreLevel` returns, from the lowest tier to the highest. -/
def tiers : List String :=
  ["初级", "入门", "中级", "高级", "专家"]

/-! ## Objects: reads after writes -/

theorem objGet_objSet {α : Type} (o : List (String × α)) (k k' : String) (v : α) :
    objGet (objSet o k v) k' = if k = k' then some v else objGet o k' := by
  induction o with
  | nil => simp [objSet, objGet]
  | cons e rest ih =>
    obtain ⟨k0, v0⟩ := e
    by_cases h : k0 = k
    · subst h
      by_cases h' : k0 = k' <;> simp [objSet, objGet, h']
    · by_cases h' : k0 = k'
      · subst h'
        have hne : ¬ k = k0 := fun e => h e.symm
        simp [objSet, objGet, h, hne]
      · simp [objSet, objGet, h, h', ih]

theorem objGet_eq_none_iff {α : Type} (o : List (String × α)) (k : String) :
    objGet o k = none ↔ k ∉ objKeys o := by
  induction o with
  | nil => simp [objGet, objKeys]
  | cons e rest ih =>
    obtain ⟨k0, v0⟩ := e
    by_cases h : k0 = k
    · simp [objGet, objKeys, h]
    · have hne : ¬ k = k0 := fun e => h e.symm
      simpa [objGet, objKeys, h, hne] using ih

theorem objGet_of_mem {α : Type} (o : List (String × α)) (hnd : (objKeys o).Nodup)
    (e : String × α) (he : e ∈ o) : objGet o e.1 = some e.2 := by
  induction o with
  | nil => simp at he
  | cons e0 rest ih =>
    obtain ⟨k0, v0⟩ := e0
    simp only [objKeys, List.map_cons, List.nodup_cons] at hnd
    rcases List.mem_cons.mp he with h | h
    · subst h
      simp [objGet]
    · have hne : k0 ≠ e.1 := by
        intro hk
        exact hnd.1 (hk ▸ List.mem_map_of_mem Prod.fst h)
      simp only [objGet, hne, if_false]
      exact ih hnd.2 h

theorem objSet_of_mem {α : Type} (o : List (String × α)) (k : String) (v : α)
    (h : k ∈ objKeys o) : objKeys (objSet o k v) = objKeys o := by
  induction o with
  | nil => simp [objKeys] at h
  | cons e rest ih =>
    obtain ⟨k0, v0⟩ := e
    by_cases hk : k0 = k
    · simp [objSet, objKeys, hk]
    · have hne : ¬ k = k0 := fun e => hk e.symm
      have hr : k ∈ objKeys rest := by simpa [objKeys, hne] using h
      have := ih hr
      simp only [objKeys] at this
      simp [objSet, objKeys, hk, this]

theorem objSet_of_not_mem {α : Type} (o : List (String × α)) (k : String) (v : α)
    (h : k ∉ objKeys o) : objSet o k v = o ++ [(k, v)] := by
  induction o with
  | nil => simp [objSet]
  | cons e rest ih =>
    obtain ⟨k0, v0⟩ := e
    have hk : ¬ k0 = k := by
      intro hk
      apply h
      simp [objKeys, hk]
    have hr : k ∉ objKeys rest := by
      intro hr
      apply h
      simp only [objKeys] at hr
      simp [objKeys, hr]
    simp [objSet, hk, ih hr]

/-- Writing the entries of an object one by one into an object with other keys
appends them in order. -/
theorem foldl_objSet_append {α β : Type} (f : String × α → β) (l : List (String × α))
    (acc : List (String × β)) (hnd : (objKeys l).Nodup)
    (hdis : ∀ k ∈ objKeys l, k ∉ objKeys acc) :
    l.foldl (fun ns e => objSet ns e.1 (f e)) acc = acc ++ l.map (fun e => (e.1, f e)) := by
  induction l generalizing acc with
  | nil => simp
  | cons e rest ih =>
    simp only [objKeys, List.map_cons, List.nodup_cons] at hnd
    have h1 : e.1 ∉ objKeys acc := hdis e.1 (by simp [objKeys])
    simp only [List.foldl_cons, objSet_of_not_mem acc e.1 (f e) h1]
    rw [ih _ hnd.2]
    · simp
    · intro k hk hk'
      simp only [objKeys, List.map_append, List.map_cons, List.map_nil, List.mem_append,
        List.mem_singleton] at hk'
      rcases hk' with hk' | hk'
      · exact hdis k (by simp only [objKeys] at hk; simp [objKeys, hk]) hk'
      · subst hk'
        exact hnd.1 hk

theorem foldl_objSet_eq_map {α β : Type} (f : String × α → β) (l : List (String × α))
    (hnd : (objKeys l).Nodup) :
    l.foldl (fun ns e => objSet ns e.1 (f e)) [] = l.map (fun e => (e.1, f e)) := by
  have := foldl_objSet_append f l [] hnd (by simp [objKeys])
  simpa using this

/-- Assigning the entries of an object one by one skips the key `__proto__`. -/
theorem foldl_objAssign_eq_filter {α β : Type} (f : String × α → β) (l : List (String × α))
    (acc : List (String × β)) :
    l.foldl (fun ns e => objAssign ns e.1 (f e)) acc =
      (l.filter (fun e => decide (e.1 ≠ "__proto__"))).foldl
        (fun ns e => objSet ns e.1 (f e)) acc := by
  induction l generalizing acc with
  | nil => rfl
  | cons e rest ih =>
    rw [List.foldl_cons, List.filter_cons]
    by_cases h : e.1 = "__proto__"
    · have ha : objAssign acc e.1 (f e) = acc := by simp [objAssign, h]
      rw [if_neg (by simp [h]), ha]
      exact ih acc
    · have ha : objAssign acc e.1 (f e) = objSet acc e.1 (f e) := by simp [objAssign, h]
      rw [if_pos (by simp [h]), List.foldl_cons, ha]
      exact ih _

theorem objKeys_filter {α : Type} (l : List (String × α)) :
    objKeys (l.filter (fun e => decide (e.1 ≠ "__proto__"))) =
      (objKeys l).filter (fun k => decide (k ≠ "__proto__")) := by
  unfold objKeys
  rw [List.filter_map]
  rfl

theorem foldl_objAssign_eq_map {α β : Type} (f : String × α → β) (l : List (String × α))
    (hnd : (objKeys l).Nodup) :
    l.foldl (fun ns e => objAssign ns e.1 (f e)) [] =
      (l.filter (fun e => decide (e.1 ≠ "__proto__"))).map (fun e => (e.1, f e)) := by
  rw [foldl_objAssign_eq_filter]
  apply foldl_objSet_eq_map
  rw [objKeys_filter]
  exact hnd.filter _

/-! ## The aggregation loop -/

theorem objKeys_addContribution (ms : List (String × ModuleAcc)) (m : String) (s w : ℚ) :
    objKeys (addContribution ms m s w) = objKeys ms := by
  unfold addContribution
  cases h : objGet ms m with
  | none => rfl
  | some d =>
    have hm : m ∈ objKeys ms := by
      by_contra hc
      rw [(objGet_eq_none_iff ms m).mpr hc] at h
      cases h
    exact objSet_of_mem ms m _ hm

theorem objGet_addContribution (ms : List (String × ModuleAcc)) (m m' : String) (s w : ℚ) :
    objGet (addContribution ms m s w) m' =
      if m = m' then (objGet ms m').map (fun d => ⟨d.score + s * w, d.maxScore + w⟩)
      else objGet ms m' := by
  unfold addContribution
  cases h : objGet ms m with
  | none =>
    by_cases hm : m = m'
    · subst hm
      simp [h]
    · simp [hm]
  | some d =>
    by_cases hm : m = m'
    · subst hm
      simp [objGet_objSet, h]
    · simp [objGet_objSet, hm]

theorem objKeys_addOption (scores : List (String × ℚ)) (ms : List (String × ModuleAcc))
    (w : ℚ) : objKeys (addOption ms scores w) = objKeys ms := by
  induction scores generalizing ms with
  | nil => rfl
  | cons e rest ih =>
    simp only [addOption, List.foldl_cons] at ih ⊢
    rw [ih, objKeys_addContribution]

/-- The effect of one selected option on the accumulator of module `m`. -/
theorem objGet_addOption (scores : List (String × ℚ)) (hnd : (objKeys scores).Nodup)
    (ms : List (String × ModuleAcc)) (w : ℚ) (m : String) :
    objGet (addOption ms scores w) m =
      match objGet scores m with
      | some s => (objGet ms m).map (fun d => ⟨d.score + s * w, d.maxScore + w⟩)
      | none => objGet ms m := by
  induction scores generalizing ms with
  | nil => simp [addOption, objGet]
  | cons e rest ih =>
    obtain ⟨k, s⟩ := e
    simp only [objKeys, List.map_cons, List.nodup_cons] at hnd
    simp only [addOption, List.foldl_cons] at ih ⊢
    rw [ih hnd.2, objGet_addContribution]
    by_cases hk : k = m
    · subst hk
      have hn : objGet rest k = none := (objGet_eq_none_iff rest k).mpr hnd.1
      simp [hn, objGet]
    · simp [objGet, hk]

/-- An invariant kept by every selected option is kept by the whole loop, and
the loop does not throw when every answer is in range. -/
theorem forEachQuestion_ok (answers : AnswerSet) (P : List (String × ModuleAcc) → Prop)
    (qs : List Question) (k : ℕ) (ms : List (String × ModuleAcc))
    (hsel : ∀ i q, qs[i]? = some q → ∃ o, arrayGet q.options (answers (k + i)) = some o ∧
      ∀ ms0, P ms0 → P (addOption ms0 o.scores q.weight))
    (h0 : P ms) : ∃ ms', forEachQuestion answers qs k ms = Except.ok ms' ∧ P ms' := by
  induction qs generalizing k ms with
  | nil => exact ⟨ms, rfl, h0⟩
  | cons q rest ih =>
    obtain ⟨o, ho, hstep⟩ := hsel 0 q (by simp)
    simp only [Nat.add_zero] at ho
    simp only [forEachQuestion, scoreQuestion, ho]
    apply ih (k + 1) _ _ (hstep ms h0)
    intro i q' hq'
    have := hsel (i + 1) q' (by simpa using hq')
    rwa [show k + (i + 1) = k + 1 + i by omega] at this

/-- The accumulator of module `m` after the loop, as the two sums. -/
theorem objGet_forEachQuestion (answers : AnswerSet) (m : String)
    (qs : List Question) (k : ℕ) (ms ms' : List (String × ModuleAcc))
    (hnd : ∀ i q, qs[i]? = some q → ∀ o, arrayGet q.options (answers (k + i)) = some o →
      (objKeys o.scores).Nodup)
    (h : forEachQuestion answers qs k ms = Except.ok ms') :
    objGet ms' m = (objGet ms m).map (fun d =>
      ⟨d.score + specRaw answers m (qs.enumFrom k), d.maxScore + specMax answers m (qs.enumFrom k)⟩) := by
  induction qs generalizing k ms with
  | nil =>
    simp only [forEachQuestion, Except.ok.injEq] at h
    subst h
    cases objGet ms m <;> simp [specRaw, specMax]
  | cons q rest ih =>
    simp only [forEachQuestion, scoreQuestion] at h
    cases ho : arrayGet q.options (answers k) with
    | none => simp [ho] at h
    | some o =>
      simp only [ho] at h
      have hndo := hnd 0 q (by simp) o (by simpa using ho)
      have hrest : ∀ i q', rest[i]? = some q' → ∀ o', arrayGet q'.options (answers (k + 1 + i)) = some o' →
          (objKeys o'.scores).Nodup := by
        intro i q' hq' o' ho'
        refine hnd (i + 1) q' (by simpa using hq') o' ?_
        rwa [show k + (i + 1) = k + 1 + i by omega]
      rw [ih (k + 1) _ hrest h, objGet_addOption _ hndo]
      cases hs : objGet o.scores m with
      | none =>
        cases objGet ms m <;>
          simp [specRaw, specMax, selectedScore, ho, hs, List.enumFrom_cons]
      | some sc =>
        cases objGet ms m with
        | none => simp
        | some d =>
          simp [specRaw, specMax, selectedScore, ho, hs, List.enumFrom_cons, add_assoc]

theorem objKeys_forEachQuestion (answers : AnswerSet) (qs : List Question) (k : ℕ)
    (ms ms' : List (String × ModuleAcc))
    (h : forEachQuestion answers qs k ms = Except.ok ms') : objKeys ms' = objKeys ms := by
  induction qs generalizing k ms with
  | nil =>
    simp only [forEachQuestion, Except.ok.injEq] at h
    rw [h]
  | cons q rest ih =>
    simp only [forEachQuestion, scoreQuestion] at h
    cases ho : arrayGet q.options (answers k) with
    | none => simp [ho] at h
    | some o =>
      simp only [ho] at h
      rw [ih (k + 1) _ h, objKeys_addOption]

/-- The loop throws as soon as one answer selects no option. -/
theorem forEachQuestion_error (answers : AnswerSet) (qs : List Question) (k i : ℕ)
    (ms : List (String × ModuleAcc)) (q : Question) (hq : qs[i]? = some q)
    (hout : arrayGet q.options (answers (k + i)) = none) :
    forEachQuestion answers qs k ms = Except.error JSError.typeError := by
  induction qs generalizing k i ms with
  | nil => simp at hq
  | cons q0 rest ih =>
    cases i with
    | zero =>
      simp only [List.getElem?_cons_zero, Option.some.injEq] at hq
      subst hq
      simp only [Nat.add_zero] at hout
      simp [forEachQuestion, scoreQuestion, hout]
    | succ j =>
      simp only [List.getElem?_cons_succ] at hq
      simp only [forEachQuestion, scoreQuestion]
      cases ho : arrayGet q0.options (answers k) with
      | none => rfl
      | some o =>
        simp only []
        apply ih (k + 1) j _ hq
        rwa [show k + 1 + j = k + (j + 1) by omega]

theorem arrayGet_out_of_bounds {α : Type} (xs : List α) (k : ℤ)
    (hout : k < 0 ∨ (xs.length : ℤ) ≤ k) : arrayGet xs (some k) = none := by
  cases k with
  | ofNat n =>
    rcases hout with h | h
    · exact absurd h (by simp)
    · have hn : xs.length ≤ n := by
        simp only [Int.ofNat_eq_coe] at h
        exact_mod_cast h
      simp [arrayGet, hn]
  | negSucc n => rfl

theorem selectedOption_of_getElem? (questions : List Question) (answers : AnswerSet) (i : ℕ)
    (q : Question) (h : questions[i]? = some q) :
    selectedOption questions answers i = arrayGet q.options (answers i) := by
  simp [selectedOption, h]

/-- The value of `calculateScores` once the loop has returned. -/
theorem calculateScores_of_aggregate (questions : List Question) (answers : AnswerSet)
    (ms : List (String × ModuleAcc)) (h : aggregate questions answers = Except.ok ms) :
    calculateScores questions answers = Except.ok
      { moduleScores := normalizeScores ms
        totalScore := JSNum.round (sumTotal (normalizeScores ms))
        answers := answers } := by
  simp [calculateScores, h]

theorem objKeys_initialModuleScores : objKeys initialModuleScores = modules := rfl

theorem nodup_modules : modules.Nodup := by
  simp [modules]

theorem normalizeScores_eq_map (ms : List (String × ModuleAcc)) (h : objKeys ms = modules) :
    normalizeScores ms = ms.map (fun e => (e.1, normalizeOne e.2)) := by
  have hne : ∀ e ∈ ms, decide (e.1 ≠ "__proto__") = true := by
    intro e he
    have hk : e.1 ∈ objKeys ms := List.mem_map_of_mem Prod.fst he
    rw [h] at hk
    simp only [modules, List.mem_cons, List.mem_singleton, List.not_mem_nil, or_false] at hk
    rcases hk with hk | hk | hk | hk | hk <;> rw [hk] <;> decide
  unfold normalizeScores
  rw [foldl_objAssign_eq_map (fun e => normalizeOne e.2) ms (h ▸ nodup_modules),
    List.filter_eq_self.mpr hne]

theorem objGet_map {α β : Type} (f : α → β) (o : List (String × α)) (k : String) :
    objGet (o.map (fun e => (e.1, f e.2))) k = (objGet o k).map f := by
  induction o with
  | nil => rfl
  | cons e rest ih =>
    obtain ⟨k0, v0⟩ := e
    by_cases h : k0 = k <;> simp [objGet, h, ih]

theorem aggregate_exampleBank :
    aggregate exampleBank answerZero = Except.ok exampleAccumulators := by
  simp [aggregate, forEachQuestion, scoreQuestion, exampleBank, answerZero, arrayGet, addOption,
    addContribution, objGet, objSet, initialModuleScores, exampleAccumulators]

theorem normalizeScores_exampleBank :
    normalizeScores exampleAccumulators =
      [("创造力", JSNum.fin 25), ("技术能力", JSNum.nan), ("任务理解与执行", JSNum.nan),
       ("社交与应变", JSNum.nan), ("问题拆解与分析", JSNum.nan)] := by
  rw [normalizeScores_eq_map exampleAccumulators rfl]
  norm_num [exampleAccumulators, normalizeOne, JSNum.div, JSNum.mul, JSNum.infOfSign]

/-! ## Claims about calculateScores -/

/-- C3: when the answer for some question is an index outside the bounds of
that question's option list, `calculateScores` throws (a `TypeError`) and
returns no result; no default option or score is substituted. -/
theorem C3_out_of_range_throws (questions : List Question) (answers : AnswerSet)
    (i : ℕ) (q : Question) (k : ℤ) (hq : questions[i]? = some q)
    (hk : answers i = some k) (hout : k < 0 ∨ (q.options.length : ℤ) ≤ k) :
    calculateScores questions answers = Except.error JSError.typeError ∧
      ∀ r, calculateScores questions answers ≠ Except.ok r := by
  have hnone : arrayGet q.options (answers (0 + i)) = none := by
    rw [Nat.zero_add, hk]
    exact arrayGet_out_of_bounds q.options k hout
  have herr : calculateScores questions answers = Except.error JSError.typeError := by
    unfold calculateScores aggregate
    rw [forEachQuestion_error answers questions 0 i initialModuleScores q hq hnone]
  refine ⟨herr, ?_⟩
  intro r hr
  rw [herr] at hr
  cases hr

theorem C3_out_of_range_throws_witness :
    calculateScores exampleBank (fun _ => some 2) = Except.error JSError.typeError ∧
      ∀ r, calculateScores exampleBank (fun _ => some 2) ≠ Except.ok r :=
  C3_out_of_range_throws exampleBank (fun _ => some 2) 0
    { module := "创造力", weight := 1, options := [⟨[("创造力", 5)]⟩, ⟨[("创造力", 1)]⟩] } 2
    (by simp [exampleBank]) rfl (by simp)

/-- C2 (as stated, refuted): on the one-question example bank with option 0
selected, the normalized score of 创造力 is not 5. -/
theorem C2_counterexample :
    ¬ ∃ r, calculateScores exampleBank answerZero = Except.ok r ∧
      objGet r.moduleScores "创造力" = some (JSNum.fin 5) := by
  rintro ⟨r, hr, h5⟩
  rw [calculateScores_of_aggregate _ _ _ aggregate_exampleBank] at hr
  simp only [Except.ok.injEq] at hr
  subst hr
  rw [normalizeScores_exampleBank] at h5
  simp only [objGet, if_true, Option.some.injEq, JSNum.fin.injEq] at h5
  norm_num at h5

/-- C2 (amended): on the one-question example bank with option 0 selected, the
accumulators are raw 5 and max 1 for 创造力 and raw 0, max 0 for the other four
modules; the normalized score of 创造力 is (5 / 1) × 5 = 25 and the other four
are `NaN`. -/
theorem C2_example_bank :
    aggregate exampleBank answerZero = Except.ok
      [("创造力", ⟨5, 1⟩), ("技术能力", ⟨0, 0⟩), ("任务理解与执行", ⟨0, 0⟩),
       ("社交与应变", ⟨0, 0⟩), ("问题拆解与分析", ⟨0, 0⟩)] ∧
    ∃ r, calculateScores exampleBank answerZero = Except.ok r ∧
      r.moduleScores =
        [("创造力", JSNum.fin 25), ("技术能力", JSNum.nan), ("任务理解与执行", JSNum.nan),
         ("社交与应变", JSNum.nan), ("问题拆解与分析", JSNum.nan)] := by
  refine ⟨aggregate_exampleBank, _, calculateScores_of_aggregate _ _ _ aggregate_exampleBank, ?_⟩
  exact normalizeScores_exampleBank

theorem addContribution_bounded (ms : List (String × ModuleAcc)) (m : String) (s w : ℚ)
    (hs : m ∈ objKeys ms → 0 ≤ s ∧ s ≤ 1) (hw : 0 ≤ w) (h : Bounded ms) :
    Bounded (addContribution ms m s w) := by
  intro m' d' hd'
  rw [objGet_addContribution] at hd'
  split_ifs at hd' with hm
  · cases hg : objGet ms m' with
    | none => simp [hg] at hd'
    | some d =>
      simp only [hg, Option.map_some', Option.some.injEq] at hd'
      subst hd'
      obtain ⟨h0, h1⟩ := h m' d hg
      have hmem : m ∈ objKeys ms := by
        by_contra hc
        have hnone := (objGet_eq_none_iff ms m').mpr (hm ▸ hc)
        rw [hnone] at hg
        cases hg
      obtain ⟨hs0, hs1⟩ := hs hmem
      exact ⟨add_nonneg h0 (mul_nonneg hs0 hw),
        add_le_add h1 (mul_le_of_le_one_left hw hs1)⟩
  · exact h m' d' hd'

theorem addOption_bounded (scores : List (String × ℚ)) (w : ℚ) (hw : 0 ≤ w)
    (ms : List (String × ModuleAcc))
    (hs : ∀ e ∈ scores, e.1 ∈ objKeys ms → 0 ≤ e.2 ∧ e.2 ≤ 1)
    (h : Bounded ms) : Bounded (addOption ms scores w) := by
  induction scores generalizing ms with
  | nil => exact h
  | cons e rest ih =>
    simp only [addOption, List.foldl_cons] at ih ⊢
    refine ih _ ?_ (addContribution_bounded ms e.1 e.2 w (hs e (by simp)) hw h)
    intro e' he' hk
    rw [objKeys_addContribution] at hk
    exact hs e' (by simp [he']) hk

theorem bounded_initialModuleScores : Bounded initialModuleScores := by
  intro m d hd
  simp only [initialModuleScores, objGet] at hd
  split_ifs at hd
  all_goals
    cases hd
    simp

/-- An object whose keys are the five modules is a list of five entries. -/
theorem entries_of_objKeys {α : Type} (o : List (String × α)) (h : objKeys o = modules) :
    ∃ d1 d2 d3 d4 d5, o = [("创造力", d1), ("技术能力", d2), ("任务理解与执行", d3),
      ("社交与应变", d4), ("问题拆解与分析", d5)] := by
  rcases o with _ | ⟨⟨k1, d1⟩, _ | ⟨⟨k2, d2⟩, _ | ⟨⟨k3, d3⟩, _ | ⟨⟨k4, d4⟩,
    _ | ⟨⟨k5, d5⟩, _ | ⟨e6, rest⟩⟩⟩⟩⟩⟩ <;> simp [objKeys, modules] at h
  obtain ⟨rfl, rfl, rfl, rfl, rfl⟩ := h
  exact ⟨d1, d2, d3, d4, d5, rfl⟩

theorem normalizeOne_of_ne_zero (d : ModuleAcc) (h : d.maxScore ≠ 0) :
    normalizeOne d = JSNum.fin (d.score / d.maxScore * 5) := by
  simp [normalizeOne, JSNum.div, JSNum.mul, h]

theorem add_zero_left (x : JSNum) : JSNum.add (JSNum.fin 0) x = x := by
  cases x <;> simp [JSNum.add]

/-- The unrounded total of a five-module object, term by term. -/
theorem sumTotal_five (n1 n2 n3 n4 n5 : JSNum) :
    sumTotal [("创造力", n1), ("技术能力", n2), ("任务理解与执行", n3), ("社交与应变", n4),
      ("问题拆解与分析", n5)] =
    JSNum.add (JSNum.add (JSNum.add (JSNum.add
      (JSNum.mul (JSNum.mul (JSNum.div n1 (JSNum.fin 5)) (JSNum.fin 100)) (JSNum.fin (20 / 100)))
      (JSNum.mul (JSNum.mul (JSNum.div n2 (JSNum.fin 5)) (JSNum.fin 100)) (JSNum.fin (25 / 100))))
      (JSNum.mul (JSNum.mul (JSNum.div n3 (JSNum.fin 5)) (JSNum.fin 100)) (JSNum.fin (20 / 100))))
      (JSNum.mul (JSNum.mul (JSNum.div n4 (JSNum.fin 5)) (JSNum.fin 100)) (JSNum.fin (15 / 100))))
      (JSNum.mul (JSNum.mul (JSNum.div n5 (JSNum.fin 5)) (JSNum.fin 100)) (JSNum.fin (20 / 100))) := by
  simp only [sumTotal, List.foldl_cons, List.foldl_nil, add_zero_left, contribution, weightOf,
    weights, objGet]
  simp

theorem sumTotal_five_fin (x1 x2 x3 x4 x5 : ℚ) :
    sumTotal [("创造力", JSNum.fin x1), ("技术能力", JSNum.fin x2), ("任务理解与执行", JSNum.fin x3),
      ("社交与应变", JSNum.fin x4), ("问题拆解与分析", JSNum.fin x5)] =
    JSNum.fin (20 * (x1 / 5) + 25 * (x2 / 5) + 20 * (x3 / 5) + 15 * (x4 / 5) + 20 * (x5 / 5)) := by
  rw [sumTotal_five]
  simp only [JSNum.div, JSNum.mul, JSNum.add]
  norm_num
  ring

theorem round_bounds (S : ℚ) (h0 : 0 ≤ S) (h1 : S ≤ 100) :
    ∃ t : ℤ, JSNum.round (JSNum.fin S) = JSNum.fin t ∧ 0 ≤ t ∧ t ≤ 100 := by
  refine ⟨⌊S + 1 / 2⌋, rfl, ?_, ?_⟩
  · exact Int.floor_nonneg.mpr (by linarith)
  · have : ⌊S + 1 / 2⌋ < 101 := by
      rw [Int.floor_lt]
      push_cast
      linarith
    omega

theorem unit_interval_scaled (s m : ℚ) (h0 : 0 ≤ s) (h1 : s ≤ m) (hm : 0 < m) :
    0 ≤ s / m * 5 ∧ s / m * 5 ≤ 5 := by
  have ha : 0 ≤ s / m := div_nonneg h0 hm.le
  have hb : s / m ≤ 1 := (div_le_one hm).mpr h1
  constructor <;> linarith

/-- C1 (as stated, refuted): a bank with a positive weight and numeric scores,
answered in range with every module reached, whose normalized scores are 25
and whose total is 500. -/
theorem C1_counterexample :
    (∀ q ∈ fullBank, 0 < q.weight) ∧ InRange fullBank answerZero ∧
    aggregate fullBank answerZero = Except.ok
      [("创造力", ⟨5, 1⟩), ("技术能力", ⟨5, 1⟩), ("任务理解与执行", ⟨5, 1⟩),
       ("社交与应变", ⟨5, 1⟩), ("问题拆解与分析", ⟨5, 1⟩)] ∧
    ∃ r, calculateScores fullBank answerZero = Except.ok r ∧
      r.moduleScores =
        [("创造力", JSNum.fin 25), ("技术能力", JSNum.fin 25), ("任务理解与执行", JSNum.fin 25),
         ("社交与应变", JSNum.fin 25), ("问题拆解与分析", JSNum.fin 25)] ∧
      r.totalScore = JSNum.fin 500 := by
  have hagg : aggregate fullBank answerZero = Except.ok
      [("创造力", ⟨5, 1⟩), ("技术能力", ⟨5, 1⟩), ("任务理解与执行", ⟨5, 1⟩),
       ("社交与应变", ⟨5, 1⟩), ("问题拆解与分析", ⟨5, 1⟩)] := by
    simp [aggregate, forEachQuestion, scoreQuestion, fullBank, answerZero, arrayGet, addOption,
      addContribution, objGet, objSet, initialModuleScores]
  have hnorm : normalizeScores
      [("创造力", ⟨5, 1⟩), ("技术能力", ⟨5, 1⟩), ("任务理解与执行", ⟨5, 1⟩),
       ("社交与应变", ⟨5, 1⟩), ("问题拆解与分析", ⟨5, 1⟩)] =
        [("创造力", JSNum.fin 25), ("技术能力", JSNum.fin 25), ("任务理解与执行", JSNum.fin 25),
         ("社交与应变", JSNum.fin 25), ("问题拆解与分析", JSNum.fin 25)] := by
    rw [normalizeScores_eq_map _ (by rfl)]
    norm_num [normalizeOne, JSNum.div, JSNum.mul]
  refine ⟨by simp [fullBank], ?_, hagg, _, calculateScores_of_aggregate _ _ _ hagg, hnorm, ?_⟩
  · intro i hi
    have hi0 : i = 0 := by simpa [fullBank] using hi
    subst hi0
    simp [selectedOption, fullBank, answerZero, arrayGet]
  · simp only [hnorm, sumTotal_five_fin, JSNum.round]
    norm_num

/-- C1 (amended): when every weight is positive, every answer is in range,
every score the selected options give to one of the five modules lies in
[0, 1], and every module ends with accumulated max > 0, `calculateScores`
returns a result whose five normalized scores lie in [0, 5] and whose
totalScore is an integer in [0, 100]. -/
theorem C1_scores_in_range (questions : List Question) (answers : AnswerSet)
    (hw : ∀ q ∈ questions, 0 < q.weight)
    (hsel : ∀ i, i < questions.length → ∃ o, selectedOption questions answers i = some o ∧
      ∀ e ∈ o.scores, e.1 ∈ modules → 0 ≤ e.2 ∧ e.2 ≤ 1)
    (hmax : ∀ ms, aggregate questions answers = Except.ok ms →
      ∀ m ∈ modules, ∀ d, objGet ms m = some d → 0 < d.maxScore) :
    ∃ r, calculateScores questions answers = Except.ok r ∧
      (∀ m ∈ modules, ∃ x : ℚ, objGet r.moduleScores m = some (JSNum.fin x) ∧ 0 ≤ x ∧ x ≤ 5) ∧
      ∃ t : ℤ, r.totalScore = JSNum.fin t ∧ 0 ≤ t ∧ t ≤ 100 := by
  obtain ⟨ms, hagg, hkeys, hbnd⟩ := forEachQuestion_ok answers
    (fun ms => objKeys ms = modules ∧ Bounded ms) questions 0 initialModuleScores
    (by
      intro i q hq
      have hi : i < questions.length := (List.getElem?_eq_some.mp hq).1
      obtain ⟨o, ho, hs⟩ := hsel i hi
      rw [selectedOption_of_getElem? questions answers i q hq] at ho
      refine ⟨o, by simpa using ho, ?_⟩
      rintro ms0 ⟨hk0, hb0⟩
      refine ⟨by rw [objKeys_addOption, hk0], ?_⟩
      exact addOption_bounded o.scores q.weight (hw q (List.getElem?_mem hq)).le ms0
        (fun e he hk => hs e he (hk0 ▸ hk)) hb0)
    ⟨objKeys_initialModuleScores, bounded_initialModuleScores⟩
  have hpos := hmax ms hagg
  obtain ⟨d1, d2, d3, d4, d5, rfl⟩ := entries_of_objKeys ms hkeys
  have p1 := hpos "创造力" (by simp [modules]) d1 (by simp [objGet])
  have p2 := hpos "技术能力" (by simp [modules]) d2 (by simp [objGet])
  have p3 := hpos "任务理解与执行" (by simp [modules]) d3 (by simp [objGet])
  have p4 := hpos "社交与应变" (by simp [modules]) d4 (by simp [objGet])
  have p5 := hpos "问题拆解与分析" (by simp [modules]) d5 (by simp [objGet])
  have b1 := hbnd "创造力" d1 (by simp [objGet])
  have b2 := hbnd "技术能力" d2 (by simp [objGet])
  have b3 := hbnd "任务理解与执行" d3 (by simp [objGet])
  have b4 := hbnd "社交与应变" d4 (by simp [objGet])
  have b5 := hbnd "问题拆解与分析" d5 (by simp [objGet])
  have u1 := unit_interval_scaled _ _ b1.1 b1.2 p1
  have u2 := unit_interval_scaled _ _ b2.1 b2.2 p2
  have u3 := unit_interval_scaled _ _ b3.1 b3.2 p3
  have u4 := unit_interval_scaled _ _ b4.1 b4.2 p4
  have u5 := unit_interval_scaled _ _ b5.1 b5.2 p5
  refine ⟨_, calculateScores_of_aggregate questions answers _ hagg, ?_, ?_⟩
  · simp only [normalizeScores_eq_map _ hkeys, List.map_cons, List.map_nil,
      normalizeOne_of_ne_zero _ p1.ne', normalizeOne_of_ne_zero _ p2.ne',
      normalizeOne_of_ne_zero _ p3.ne', normalizeOne_of_ne_zero _ p4.ne',
      normalizeOne_of_ne_zero _ p5.ne']
    intro m hm
    simp only [modules, List.mem_cons, List.mem_singleton, List.not_mem_nil, or_false] at hm
    rcases hm with rfl | rfl | rfl | rfl | rfl
    · exact ⟨_, by simp [objGet], u1⟩
    · exact ⟨_, by simp [objGet], u2⟩
    · exact ⟨_, by simp [objGet], u3⟩
    · exact ⟨_, by simp [objGet], u4⟩
    · exact ⟨_, by simp [objGet], u5⟩
  · simp only [normalizeScores_eq_map _ hkeys, List.map_cons, List.map_nil,
      normalizeOne_of_ne_zero _ p1.ne', normalizeOne_of_ne_zero _ p2.ne',
      normalizeOne_of_ne_zero _ p3.ne', normalizeOne_of_ne_zero _ p4.ne',
      normalizeOne_of_ne_zero _ p5.ne', sumTotal_five_fin]
    apply round_bounds
    · linarith [u1.1, u2.1, u3.1, u4.1, u5.1]
    · linarith [u1.2, u2.2, u3.2, u4.2, u5.2]

theorem aggregate_unitBank : aggregate unitBank answerZero = Except.ok unitAccumulators := by
  simp [aggregate, forEachQuestion, scoreQuestion, unitBank, answerZero, arrayGet, addOption,
    addContribution, objGet, objSet, initialModuleScores, unitAccumulators]
  norm_num

theorem inRange_unitBank : InRange unitBank answerZero := by
  intro i hi
  have hi0 : i = 0 := by simpa [unitBank] using hi
  subst hi0
  simp [selectedOption, unitBank, answerZero, arrayGet]

theorem selectedOption_unitBank (i : ℕ) (o : AnswerOption)
    (h : selectedOption unitBank answerZero i = some o) :
    o.scores = [("创造力", 1), ("技术能力", 1 / 2), ("任务理解与执行", 0), ("社交与应变", 1),
       ("问题拆解与分析", 1 / 4)] := by
  cases i with
  | zero =>
    simp [selectedOption, unitBank, answerZero, arrayGet] at h
    rw [← h]
    norm_num
  | succ j => simp [selectedOption, unitBank] at h

theorem C1_scores_in_range_witness :
    ∃ r, calculateScores unitBank answerZero = Except.ok r ∧
      (∀ m ∈ modules, ∃ x : ℚ, objGet r.moduleScores m = some (JSNum.fin x) ∧ 0 ≤ x ∧ x ≤ 5) ∧
      ∃ t : ℤ, r.totalScore = JSNum.fin t ∧ 0 ≤ t ∧ t ≤ 100 :=
  C1_scores_in_range unitBank answerZero (by simp [unitBank])
    (by
      intro i hi
      have hsome := inRange_unitBank i hi
      obtain ⟨o, ho⟩ := Option.isSome_iff_exists.mp hsome
      refine ⟨o, ho, ?_⟩
      intro e he _
      rw [selectedOption_unitBank i o ho] at he
      simp only [List.mem_cons, List.mem_singleton, List.not_mem_nil, or_false] at he
      rcases he with rfl | rfl | rfl | rfl | rfl <;> norm_num)
    (by
      intro ms hms m hm d hd
      rw [aggregate_unitBank] at hms
      simp only [Except.ok.injEq] at hms
      subst hms
      simp only [modules, List.mem_cons, List.mem_singleton, List.not_mem_nil, or_false] at hm
      rcases hm with rfl | rfl | rfl | rfl | rfl <;>
        simp [unitAccumulators, objGet] at hd <;> subst hd <;> norm_num)

theorem objGet_initialModuleScores (m : String) (hm : m ∈ modules) :
    objGet initialModuleScores m = some ⟨0, 0⟩ := by
  simp only [modules, List.mem_cons, List.mem_singleton, List.not_mem_nil, or_false] at hm
  rcases hm with rfl | rfl | rfl | rfl | rfl <;> simp [initialModuleScores, objGet]

theorem inRange_step (questions : List Question) (answers : AnswerSet)
    (hin : InRange questions answers) (i : ℕ) (q : Question) (hq : questions[i]? = some q) :
    ∃ o, arrayGet q.options (answers (0 + i)) = some o ∧
      selectedOption questions answers i = some o := by
  have hi : i < questions.length := (List.getElem?_eq_some.mp hq).1
  obtain ⟨o, ho⟩ := Option.isSome_iff_exists.mp (hin i hi)
  refine ⟨o, ?_, ho⟩
  rw [selectedOption_of_getElem? questions answers i q hq] at ho
  simpa using ho

/-- C4: for a complete in-range answer set and each of the five modules `m`,
the loop leaves `m` with raw = the sum of (selected score for `m` × weight)
and max = the sum of the weights, both over exactly the questions whose
selected option's score map contains `m`; the result has the five modules as
its keys, and its score for `m` is (raw / max) × 5 whenever max > 0. -/
theorem C4_aggregation (questions : List Question) (answers : AnswerSet)
    (hin : InRange questions answers)
    (hnd : ∀ i o, selectedOption questions answers i = some o → (objKeys o.scores).Nodup)
    (m : String) (hm : m ∈ modules) :
    ∃ ms r, aggregate questions answers = Except.ok ms ∧
      objGet ms m = some ⟨specRaw answers m questions.enum, specMax answers m questions.enum⟩ ∧
      calculateScores questions answers = Except.ok r ∧
      objKeys r.moduleScores = modules ∧
      objGet r.moduleScores m = some (JSNum.mul (JSNum.div
        (JSNum.fin (specRaw answers m questions.enum))
        (JSNum.fin (specMax answers m questions.enum))) (JSNum.fin 5)) ∧
      (0 < specMax answers m questions.enum →
        objGet r.moduleScores m = some (JSNum.fin
          (specRaw answers m questions.enum / specMax answers m questions.enum * 5))) := by
  obtain ⟨ms, hagg, hkeys⟩ := forEachQuestion_ok answers
    (fun ms => objKeys ms = modules) questions 0 initialModuleScores
    (by
      intro i q hq
      obtain ⟨o, ho, _⟩ := inRange_step questions answers hin i q hq
      exact ⟨o, ho, fun ms0 hk0 => (objKeys_addOption o.scores ms0 q.weight).trans hk0⟩)
    objKeys_initialModuleScores
  have hget := objGet_forEachQuestion answers m questions 0 initialModuleScores ms
    (by
      intro i q hq o ho
      apply hnd i o
      rw [selectedOption_of_getElem? questions answers i q hq]
      simpa using ho)
    hagg
  rw [objGet_initialModuleScores m hm] at hget
  simp only [Option.map_some', zero_add] at hget
  have hget' : objGet ms m =
      some ⟨specRaw answers m questions.enum, specMax answers m questions.enum⟩ := hget
  have hscore : objGet (normalizeScores ms) m = some (JSNum.mul (JSNum.div
        (JSNum.fin (specRaw answers m questions.enum))
        (JSNum.fin (specMax answers m questions.enum))) (JSNum.fin 5)) := by
    rw [normalizeScores_eq_map ms hkeys, objGet_map, hget']
    rfl
  refine ⟨ms, _, hagg, hget', calculateScores_of_aggregate questions answers ms hagg, ?_,
    hscore, ?_⟩
  · show objKeys (normalizeScores ms) = modules
    rw [normalizeScores_eq_map ms hkeys, ← hkeys]
    simp [objKeys]
  · intro hpos
    show objGet (normalizeScores ms) m = _
    rw [hscore]
    simp [JSNum.div, JSNum.mul, hpos.ne']

theorem C4_aggregation_witness :
    ∃ ms r, aggregate unitBank answerZero = Except.ok ms ∧
      objGet ms "技术能力" = some ⟨specRaw answerZero "技术能力" unitBank.enum,
        specMax answerZero "技术能力" unitBank.enum⟩ ∧
      calculateScores unitBank answerZero = Except.ok r ∧
      objKeys r.moduleScores = modules ∧
      objGet r.moduleScores "技术能力" = some (JSNum.mul (JSNum.div
        (JSNum.fin (specRaw answerZero "技术能力" unitBank.enum))
        (JSNum.fin (specMax answerZero "技术能力" unitBank.enum))) (JSNum.fin 5)) ∧
      (0 < specMax answerZero "技术能力" unitBank.enum →
        objGet r.moduleScores "技术能力" = some (JSNum.fin
          (specRaw answerZero "技术能力" unitBank.enum /
            specMax answerZero "技术能力" unitBank.enum * 5))) :=
  C4_aggregation unitBank answerZero inRange_unitBank
    (by
      intro i o ho
      rw [selectedOption_unitBank i o ho]
      simp [objKeys])
    "技术能力" (by simp [modules])

theorem objGet_addOption_of_not_mem (scores : List (String × ℚ)) (w : ℚ) (m : String)
    (hm : m ∉ objKeys scores) (ms : List (String × ModuleAcc)) :
    objGet (addOption ms scores w) m = objGet ms m := by
  induction scores generalizing ms with
  | nil => rfl
  | cons e rest ih =>
    simp only [objKeys, List.map_cons, List.mem_cons, not_or] at hm
    simp only [addOption, List.foldl_cons] at ih ⊢
    have hne : ¬ e.1 = m := fun he => hm.1 he.symm
    rw [ih hm.2, objGet_addContribution, if_neg hne]

theorem mem_of_objGet {α : Type} (o : List (String × α)) (k : String) (v : α)
    (h : objGet o k = some v) : (k, v) ∈ o := by
  induction o with
  | nil => simp [objGet] at h
  | cons e rest ih =>
    obtain ⟨k0, v0⟩ := e
    by_cases hk : k0 = k
    · simp only [objGet, hk, if_true, Option.some.injEq] at h
      simp [hk, h]
    · simp only [objGet, hk, if_false] at h
      exact List.mem_cons_of_mem _ (ih h)

theorem contribution_nan (m : String) : contribution m JSNum.nan = JSNum.nan := by
  simp [contribution, JSNum.div, JSNum.mul]

theorem add_nan_right (x : JSNum) : JSNum.add x JSNum.nan = JSNum.nan := by
  cases x <;> rfl

theorem foldl_add_nan (l : List (String × JSNum)) :
    l.foldl (fun total e => JSNum.add total (contribution e.1 e.2)) JSNum.nan = JSNum.nan := by
  induction l with
  | nil => rfl
  | cons e rest ih =>
    simp only [List.foldl_cons]
    have : JSNum.add JSNum.nan (contribution e.1 e.2) = JSNum.nan := by
      simp [JSNum.add]
    rw [this, ih]

/-- A `NaN` module score makes the unrounded total `NaN`. -/
theorem foldl_add_of_mem_nan (l : List (String × JSNum)) (m : String)
    (hm : (m, JSNum.nan) ∈ l) (acc : JSNum) :
    l.foldl (fun total e => JSNum.add total (contribution e.1 e.2)) acc = JSNum.nan := by
  induction l generalizing acc with
  | nil => simp at hm
  | cons e rest ih =>
    simp only [List.foldl_cons]
    rcases List.mem_cons.mp hm with h | h
    · rw [← h]
      simp only [contribution_nan, add_nan_right]
      exact foldl_add_nan rest
    · exact ih h _

/-- C9 (as stated, refuted): on the example bank, where four modules are never
touched, `calculateScores` throws nothing and returns a result whose score
for 技术能力 and whose totalScore are `NaN`. -/
theorem C9_counterexample :
    InRange exampleBank answerZero ∧
    objGet exampleAccumulators "技术能力" = some ⟨0, 0⟩ ∧
    aggregate exampleBank answerZero = Except.ok exampleAccumulators ∧
    ∃ r, calculateScores exampleBank answerZero = Except.ok r ∧
      objGet r.moduleScores "技术能力" = some JSNum.nan ∧ r.totalScore = JSNum.nan := by
  refine ⟨?_, by simp [exampleAccumulators, objGet], aggregate_exampleBank, _,
    calculateScores_of_aggregate _ _ _ aggregate_exampleBank, ?_, ?_⟩
  · intro i hi
    have hi0 : i = 0 := by simpa [exampleBank] using hi
    subst hi0
    simp [selectedOption, exampleBank, answerZero, arrayGet]
  · show objGet (normalizeScores exampleAccumulators) "技术能力" = some JSNum.nan
    rw [normalizeScores_exampleBank]
    simp [objGet]
  · show JSNum.round (sumTotal (normalizeScores exampleAccumulators)) = JSNum.nan
    rw [normalizeScores_exampleBank, sumTotal,
      foldl_add_of_mem_nan _ "技术能力" (by simp)]
    rfl

/-- C9 (amended): for a complete in-range answer set in which no selected
option's score map contains the module `m` (one of the five), the loop leaves
`m` with raw 0 and max 0, and `calculateScores` throws nothing: it returns a
result whose score for `m` is `NaN` and whose totalScore is `NaN`. -/
theorem C9_unreachable_module (questions : List Question) (answers : AnswerSet)
    (hin : InRange questions answers) (m : String) (hm : m ∈ modules)
    (hun : ∀ i o, selectedOption questions answers i = some o → m ∉ objKeys o.scores) :
    ∃ ms r, aggregate questions answers = Except.ok ms ∧ objGet ms m = some ⟨0, 0⟩ ∧
      calculateScores questions answers = Except.ok r ∧
      objGet r.moduleScores m = some JSNum.nan ∧ r.totalScore = JSNum.nan := by
  obtain ⟨ms, hagg, hkeys, hzero⟩ := forEachQuestion_ok answers
    (fun ms => objKeys ms = modules ∧ objGet ms m = some ⟨0, 0⟩) questions 0
    initialModuleScores
    (by
      intro i q hq
      obtain ⟨o, ho, hsel⟩ := inRange_step questions answers hin i q hq
      refine ⟨o, ho, ?_⟩
      rintro ms0 ⟨hk0, hz0⟩
      exact ⟨(objKeys_addOption o.scores ms0 q.weight).trans hk0,
        (objGet_addOption_of_not_mem o.scores q.weight m (hun i o hsel) ms0).trans hz0⟩)
    ⟨objKeys_initialModuleScores, objGet_initialModuleScores m hm⟩
  have hscore : objGet (normalizeScores ms) m = some JSNum.nan := by
    rw [normalizeScores_eq_map ms hkeys, objGet_map, hzero]
    simp [normalizeOne, JSNum.div, JSNum.mul, JSNum.infOfSign]
  refine ⟨ms, _, hagg, hzero, calculateScores_of_aggregate questions answers ms hagg, hscore, ?_⟩
  show JSNum.round (sumTotal (normalizeScores ms)) = JSNum.nan
  rw [sumTotal, foldl_add_of_mem_nan _ m (mem_of_objGet _ m _ hscore)]
  rfl

theorem C9_unreachable_module_witness :
    ∃ ms r, aggregate exampleBank answerZero = Except.ok ms ∧
      objGet ms "社交与应变" = some ⟨0, 0⟩ ∧
      calculateScores exampleBank answerZero = Except.ok r ∧
      objGet r.moduleScores "社交与应变" = some JSNum.nan ∧ r.totalScore = JSNum.nan :=
  C9_unreachable_module exampleBank answerZero
    (by
      intro i hi
      have hi0 : i = 0 := by simpa [exampleBank] using hi
      subst hi0
      simp [selectedOption, exampleBank, answerZero, arrayGet])
    "社交与应变" (by simp [modules])
    (by
      intro i o ho
      cases i with
      | zero =>
        simp [selectedOption, exampleBank, answerZero, arrayGet] at ho
        rw [← ho]
        simp [objKeys]
      | succ j => simp [selectedOption, exampleBank] at ho)

/-! ## Claims about getScoreRange and getScoreLevel -/

theorem arrayGetNum_intCast {α : Type} (xs : List α) (z : ℤ) (hz : 0 ≤ z) :
    arrayGetNum xs (JSNum.fin (z : ℚ)) = xs[z.toNat]? := by
  simp [arrayGetNum, hz]

theorem min_floor_four (x : ℚ) :
    JSNum.min (JSNum.floor (JSNum.fin x)) (JSNum.fin 4) =
      JSNum.fin ((min ⌊x⌋ 4 : ℤ) : ℚ) := by
  simp only [JSNum.floor, JSNum.min]
  congr 1
  by_cases h : ⌊x⌋ ≤ 4
  · have hq : ((⌊x⌋ : ℤ) : ℚ) ≤ 4 := by exact_mod_cast h
    simp [h, hq]
  · have hq : ¬ ((⌊x⌋ : ℤ) : ℚ) ≤ 4 := by
      intro hc
      exact h (by exact_mod_cast hc)
    have h4 : (4 : ℤ) ≤ ⌊x⌋ := by omega
    simp [hq, h4]

/-- The range index `getScoreRange` computes on finite arguments. -/
theorem getScoreRange_fin (score maxScore : ℚ) (hm : maxScore ≠ 0) :
    getScoreRange (JSNum.fin score) (JSNum.fin maxScore) =
      arrayGetNum (ranges (JSNum.fin maxScore))
        (JSNum.fin ((min ⌊score / maxScore * 100 / 20⌋ 4 : ℤ) : ℚ)) := by
  simp only [getScoreRange, JSNum.div, JSNum.mul, hm, if_false]
  norm_num only [if_false]
  rw [min_floor_four]

theorem length_ranges (maxScore : JSNum) : (ranges maxScore).length = 5 := by
  unfold ranges
  split_ifs <;> rfl

/-- C6 (as stated, refuted): a score of -1 on the 100 scale gets no label. -/
theorem C6_counterexample :
    getScoreRange (JSNum.fin (-1)) (JSNum.fin 100) = none := by
  norm_num [getScoreRange, JSNum.div, JSNum.mul, JSNum.floor, JSNum.min, arrayGetNum, ranges]

/-- C6 (amended): for a non-zero maxScore and a score whose percentage
score / maxScore × 100 is at least 0, `getScoreRange` returns the label at the
index min(floor(percentage / 20), 4), which lies in [0, 4]; the label is one
of the five of the scale, the 100-scale list when maxScore is 100 and the
5-scale list otherwise. -/
theorem C6_range_label (score maxScore : ℚ) (hm : maxScore ≠ 0)
    (hp : 0 ≤ score / maxScore * 100) :
    0 ≤ min ⌊score / maxScore * 100 / 20⌋ 4 ∧ min ⌊score / maxScore * 100 / 20⌋ 4 ≤ 4 ∧
    getScoreRange (JSNum.fin score) (JSNum.fin maxScore) =
      (ranges (JSNum.fin maxScore))[(min ⌊score / maxScore * 100 / 20⌋ 4).toNat]? ∧
    (∃ label ∈ ranges (JSNum.fin maxScore),
      getScoreRange (JSNum.fin score) (JSNum.fin maxScore) = some label) ∧
    ranges (JSNum.fin 100) = ["0-20", "21-40", "41-60", "61-80", "81-100"] ∧
    (maxScore ≠ 100 → ranges (JSNum.fin maxScore) = ["0-1", "1-2", "2-3", "3-4", "4-5"]) := by
  have h0 : 0 ≤ min ⌊score / maxScore * 100 / 20⌋ 4 :=
    le_min (Int.floor_nonneg.mpr (by positivity)) (by norm_num)
  have h4 : min ⌊score / maxScore * 100 / 20⌋ 4 ≤ 4 := min_le_right _ _
  have hget : getScoreRange (JSNum.fin score) (JSNum.fin maxScore) =
      (ranges (JSNum.fin maxScore))[(min ⌊score / maxScore * 100 / 20⌋ 4).toNat]? := by
    rw [getScoreRange_fin score maxScore hm, arrayGetNum_intCast _ _ h0]
  have hlt : (min ⌊score / maxScore * 100 / 20⌋ 4).toNat < (ranges (JSNum.fin maxScore)).length := by
    rw [length_ranges]
    omega
  refine ⟨h0, h4, hget, ?_, ?_, ?_⟩
  · refine ⟨(ranges (JSNum.fin maxScore))[(min ⌊score / maxScore * 100 / 20⌋ 4).toNat],
      List.getElem_mem _, ?_⟩
    rw [hget, List.getElem?_eq_getElem hlt]
  · simp [ranges]
  · intro hne
    simp [ranges, hne]

theorem C6_range_label_witness :
    getScoreRange (JSNum.fin (37 / 10)) (JSNum.fin 5) =
      (ranges (JSNum.fin 5))[(min ⌊(37 / 10 : ℚ) / 5 * 100 / 20⌋ 4).toNat]? :=
  (C6_range_label (37 / 10) 5 (by norm_num) (by norm_num)).2.2.1

theorem getScoreRange_of_percentage (score maxScore : JSNum) :
    getScoreRange score maxScore = arrayGetNum (ranges maxScore)
      (JSNum.min (JSNum.floor (JSNum.div (percentageOf score maxScore) (JSNum.fin 20)))
        (JSNum.fin 4)) := rfl

theorem getScoreRange_boundary (score maxScore : JSNum) (k : ℕ) (hk : k ≤ 3)
    (hp : percentageOf score maxScore = JSNum.fin (20 * k)) :
    getScoreRange score maxScore = (ranges maxScore)[k]? := by
  rw [getScoreRange_of_percentage, hp]
  have hdiv : JSNum.div (JSNum.fin (20 * (k : ℚ))) (JSNum.fin 20) = JSNum.fin ((k : ℤ) : ℚ) := by
    simp [JSNum.div]
  rw [hdiv, min_floor_four]
  have hmin : min ⌊(((k : ℤ) : ℚ))⌋ 4 = (k : ℤ) := by
    rw [Int.floor_intCast]
    omega
  rw [hmin, arrayGetNum_intCast _ _ (by omega)]
  simp

theorem getScoreRange_top (score maxScore : JSNum)
    (hp : JSNum.ge (percentageOf score maxScore) (JSNum.fin 80) = true) :
    getScoreRange score maxScore = (ranges maxScore)[4]? := by
  rw [getScoreRange_of_percentage]
  cases hpc : percentageOf score maxScore with
  | fin p =>
    rw [hpc] at hp
    have h80 : 80 ≤ p := by simpa [JSNum.ge] using hp
    have hdiv : JSNum.div (JSNum.fin p) (JSNum.fin 20) = JSNum.fin (p / 20) := by
      simp [JSNum.div]
    rw [hdiv, min_floor_four]
    have h4 : (4 : ℤ) ≤ ⌊p / 20⌋ := by
      rw [Int.le_floor]
      push_cast
      linarith
    have hmin : min ⌊p / 20⌋ 4 = 4 := by omega
    rw [hmin, arrayGetNum_intCast _ _ (by norm_num)]
    simp
  | nan =>
    rw [hpc] at hp
    simp [JSNum.ge] at hp
  | pinf =>
    have hmin : JSNum.min (JSNum.floor (JSNum.div JSNum.pinf (JSNum.fin 20))) (JSNum.fin 4) =
        JSNum.fin ((4 : ℤ) : ℚ) := by
      norm_num [JSNum.div, JSNum.floor, JSNum.min]
    rw [hmin, arrayGetNum_intCast _ _ (by norm_num)]
    simp
  | ninf =>
    rw [hpc] at hp
    simp [JSNum.ge] at hp

/-- C7: `getScoreRange(0, 100)` is the first bucket, `getScoreRange(20, 100)`
the second and `getScoreRange(100, 100)` the last; for every k in 0..3 a
percentage of exactly 20k gives bucket k, and every percentage >= 80 gives
bucket 4. -/
theorem C7_bucket_boundaries :
    getScoreRange (JSNum.fin 0) (JSNum.fin 100) = some "0-20" ∧
    getScoreRange (JSNum.fin 20) (JSNum.fin 100) = some "21-40" ∧
    getScoreRange (JSNum.fin 100) (JSNum.fin 100) = some "81-100" ∧
    (∀ (score maxScore : JSNum) (k : ℕ), k ≤ 3 →
      percentageOf score maxScore = JSNum.fin (20 * k) →
      getScoreRange score maxScore = (ranges maxScore)[k]?) ∧
    (∀ score maxScore : JSNum,
      JSNum.ge (percentageOf score maxScore) (JSNum.fin 80) = true →
      getScoreRange score maxScore = (ranges maxScore)[4]?) := by
  refine ⟨?_, ?_, ?_, getScoreRange_boundary, getScoreRange_top⟩
  · norm_num [getScoreRange, JSNum.div, JSNum.mul, JSNum.floor, JSNum.min, arrayGetNum, ranges]
  · norm_num [getScoreRange, JSNum.div, JSNum.mul, JSNum.floor, JSNum.min, arrayGetNum, ranges]
  · norm_num [getScoreRange, JSNum.div, JSNum.mul, JSNum.floor, JSNum.min, arrayGetNum, ranges]
    rfl

theorem C7_bucket_boundaries_witness :
    getScoreRange (JSNum.fin 2) (JSNum.fin 5) = (ranges (JSNum.fin 5))[2]? ∧
    getScoreRange (JSNum.fin 9) (JSNum.fin 10) = (ranges (JSNum.fin 10))[4]? :=
  ⟨C7_bucket_boundaries.2.2.2.1 (JSNum.fin 2) (JSNum.fin 5) 2 (by norm_num)
      (by norm_num [percentageOf, JSNum.div, JSNum.mul]),
    C7_bucket_boundaries.2.2.2.2 (JSNum.fin 9) (JSNum.fin 10)
      (by norm_num [percentageOf, JSNum.div, JSNum.mul, JSNum.ge])⟩

theorem getScoreLevel_fin (score maxScore : ℚ) (hm : maxScore ≠ 0) :
    getScoreLevel (JSNum.fin score) (JSNum.fin maxScore) =
      if 80 ≤ score / maxScore * 100 then "专家"
      else if 60 ≤ score / maxScore * 100 then "高级"
      else if 40 ≤ score / maxScore * 100 then "中级"
      else if 20 ≤ score / maxScore * 100 then "入门"
      else "初级" := by
  simp [getScoreLevel, JSNum.div, JSNum.mul, JSNum.ge, hm]

/-- C8: for a positive maxScore, with percentage = score / maxScore × 100,
`getScoreLevel` returns 专家 iff percentage >= 80, 高级 iff 60 <= percentage <
80, 中级 iff 40 <= percentage < 60, 入门 iff 20 <= percentage < 40 and 初级 iff
percentage < 20; `getScoreLevel(4, 5)` is 专家 and `getScoreLevel(1, 5)` is
入门. -/
theorem C8_score_level (score maxScore : ℚ) (hm : 0 < maxScore) :
    (getScoreLevel (JSNum.fin score) (JSNum.fin maxScore) = "专家" ↔
      80 ≤ score / maxScore * 100) ∧
    (getScoreLevel (JSNum.fin score) (JSNum.fin maxScore) = "高级" ↔
      60 ≤ score / maxScore * 100 ∧ score / maxScore * 100 < 80) ∧
    (getScoreLevel (JSNum.fin score) (JSNum.fin maxScore) = "中级" ↔
      40 ≤ score / maxScore * 100 ∧ score / maxScore * 100 < 60) ∧
    (getScoreLevel (JSNum.fin score) (JSNum.fin maxScore) = "入门" ↔
      20 ≤ score / maxScore * 100 ∧ score / maxScore * 100 < 40) ∧
    (getScoreLevel (JSNum.fin score) (JSNum.fin maxScore) = "初级" ↔
      score / maxScore * 100 < 20) ∧
    getScoreLevel (JSNum.fin 4) (JSNum.fin 5) = "专家" ∧
    getScoreLevel (JSNum.fin 1) (JSNum.fin 5) = "入门" := by
  rw [getScoreLevel_fin score maxScore hm.ne']
  refine ⟨?_, ?_, ?_, ?_, ?_, ?_, ?_⟩
  · split_ifs <;> simp <;> linarith
  · split_ifs <;> simp
    all_goals first | (constructor <;> linarith) | (intros; linarith)
  · split_ifs <;> simp
    all_goals first | (constructor <;> linarith) | (intros; linarith)
  · split_ifs <;> simp
    all_goals first | (constructor <;> linarith) | (intros; linarith)
  · split_ifs <;> simp <;> linarith
  · rw [getScoreLevel_fin 4 5 (by norm_num)]
    norm_num
  · rw [getScoreLevel_fin 1 5 (by norm_num)]
    norm_num

theorem C8_score_level_witness :
    (getScoreLevel (JSNum.fin 3) (JSNum.fin 5) = "高级" ↔
      60 ≤ (3 : ℚ) / 5 * 100 ∧ (3 : ℚ) / 5 * 100 < 80) :=
  (C8_score_level 3 5 (by norm_num)).2.1

/-! ## Claims about getPersonalizedSuggestions -/

theorem objKeys_map_snd {α β : Type} (f : String × α → β) (o : List (String × α)) :
    objKeys (o.map (fun e => (e.1, f e))) = objKeys o := by
  simp [objKeys]

theorem totalSuggestion_some {σ : Type} (table : SuggestionTable σ) (label : String) :
    totalSuggestion table (some label) =
      (match table.totalScore with
        | some bySection => objGet bySection label
        | none => none) := by
  unfold totalSuggestion
  cases table.totalScore <;> rfl

theorem totalSuggestion_none {σ : Type} (table : SuggestionTable σ) :
    totalSuggestion table none =
      (match table.totalScore with
        | some bySection => objGet bySection "undefined"
        | none => none) := by
  unfold totalSuggestion
  cases table.totalScore <;> rfl

theorem moduleSuggestion_some {σ : Type} (table : SuggestionTable σ) (module label : String) :
    moduleSuggestion table module (some label) =
      (match table.modules with
        | some byModule =>
          match objGet byModule module with
          | some entry => objGet entry label
          | none => none
        | none => none) := by
  cases hm : table.modules with
  | none => simp [moduleSuggestion, hm]
  | some byModule =>
    cases ho : objGet byModule module <;> simp [moduleSuggestion, hm, ho, propKey]

theorem moduleSuggestion_none {σ : Type} (table : SuggestionTable σ) (module : String) :
    moduleSuggestion table module none =
      (match table.modules with
        | some byModule =>
          match objGet byModule module with
          | some entry => objGet entry "undefined"
          | none => none
        | none => none) := by
  cases hm : table.modules with
  | none => simp [moduleSuggestion, hm]
  | some byModule =>
    cases ho : objGet byModule module <;> simp [moduleSuggestion, hm, ho, propKey]

/-- The modules map of the suggestions: one entry for every module score
whose key is not `__proto__`. -/
theorem modules_getPersonalizedSuggestions {σ : Type} (table : SuggestionTable σ)
    (totalScore : JSNum) (moduleScores : List (String × JSNum))
    (hnd : (objKeys moduleScores).Nodup) :
    (getPersonalizedSuggestions table totalScore moduleScores).modules =
      (moduleScores.filter (fun e => decide (e.1 ≠ "__proto__"))).map (fun e =>
        (e.1, moduleSuggestion table e.1 (getScoreRange e.2 (JSNum.fin 5)))) :=
  foldl_objAssign_eq_map
    (fun e => moduleSuggestion table e.1 (getScoreRange e.2 (JSNum.fin 5))) moduleScores hnd

theorem objGet_modules_getPersonalizedSuggestions {σ : Type} (table : SuggestionTable σ)
    (totalScore : JSNum) (moduleScores : List (String × JSNum))
    (hnd : (objKeys moduleScores).Nodup) (e : String × JSNum) (he : e ∈ moduleScores)
    (hproto : e.1 ≠ "__proto__") :
    objGet (getPersonalizedSuggestions table totalScore moduleScores).modules e.1 =
      some (moduleSuggestion table e.1 (getScoreRange e.2 (JSNum.fin 5))) := by
  rw [modules_getPersonalizedSuggestions table totalScore moduleScores hnd]
  have hmem : (e.1, moduleSuggestion table e.1 (getScoreRange e.2 (JSNum.fin 5))) ∈
      (moduleScores.filter (fun e => decide (e.1 ≠ "__proto__"))).map (fun e =>
        (e.1, moduleSuggestion table e.1 (getScoreRange e.2 (JSNum.fin 5)))) := by
    refine List.mem_map_of_mem
      (fun e : String × JSNum =>
        (e.1, moduleSuggestion table e.1 (getScoreRange e.2 (JSNum.fin 5)))) ?_
    exact List.mem_filter.mpr ⟨he, by simpa using hproto⟩
  have hnd' : (objKeys ((moduleScores.filter (fun e => decide (e.1 ≠ "__proto__"))).map
      (fun e => (e.1, moduleSuggestion table e.1 (getScoreRange e.2 (JSNum.fin 5)))))).Nodup := by
    rw [objKeys_map_snd, objKeys_filter]
    exact hnd.filter _
  exact objGet_of_mem _ hnd' _ hmem

/-- C10 (as stated, refuted): for a result whose module scores have the own
key `__proto__` the modules map of the suggestions has no key at all. -/
theorem C10_counterexample :
    objKeys (getPersonalizedSuggestions exampleTable (JSNum.fin 90)
        [("__proto__", JSNum.fin 3)]).modules = [] ∧
    objKeys [("__proto__", JSNum.fin 3)] = ["__proto__"] := by
  refine ⟨?_, rfl⟩
  rw [modules_getPersonalizedSuggestions exampleTable (JSNum.fin 90) _ (by simp [objKeys])]
  simp [objKeys]

/-- C10 (amended): for every result and every suggestion table, whichever
sections or entries the table lacks, `getPersonalizedSuggestions` returns a
value.  Its total is the entry of the table's totalScore section under the
label `getScoreRange(totalScore, 100)` (under the key "undefined" when there
is no label), and `undefined` when the section or the entry is missing.  Its
modules map has exactly the keys of the result's module scores other than
`__proto__`, each mapped to the entry of the table's modules section for that
module under the label `getScoreRange(score, 5)` (under the key "undefined"
when there is no label), and to `undefined` when the section, the module or
the entry is missing. -/
theorem C10_suggestions {σ : Type} (table : SuggestionTable σ) (totalScore : JSNum)
    (moduleScores : List (String × JSNum)) (hnd : (objKeys moduleScores).Nodup) :
    (∀ label, getScoreRange totalScore (JSNum.fin 100) = some label →
      (getPersonalizedSuggestions table totalScore moduleScores).total =
        (match table.totalScore with
          | some bySection => objGet bySection label
          | none => none)) ∧
    (getScoreRange totalScore (JSNum.fin 100) = none →
      (getPersonalizedSuggestions table totalScore moduleScores).total =
        (match table.totalScore with
          | some bySection => objGet bySection "undefined"
          | none => none)) ∧
    objKeys (getPersonalizedSuggestions table totalScore moduleScores).modules =
      (objKeys moduleScores).filter (fun k => decide (k ≠ "__proto__")) ∧
    ∀ e ∈ moduleScores, e.1 ≠ "__proto__" →
      (∀ label, getScoreRange e.2 (JSNum.fin 5) = some label →
        objGet (getPersonalizedSuggestions table totalScore moduleScores).modules e.1 =
          some (match table.modules with
            | some byModule =>
              match objGet byModule e.1 with
              | some entry => objGet entry label
              | none => none
            | none => none)) ∧
      (getScoreRange e.2 (JSNum.fin 5) = none →
        objGet (getPersonalizedSuggestions table totalScore moduleScores).modules e.1 =
          some (match table.modules with
            | some byModule =>
              match objGet byModule e.1 with
              | some entry => objGet entry "undefined"
              | none => none
            | none => none)) := by
  refine ⟨?_, ?_, ?_, ?_⟩
  · intro label hlabel
    show totalSuggestion table (getScoreRange totalScore (JSNum.fin 100)) = _
    rw [hlabel, totalSuggestion_some]
  · intro hnone
    show totalSuggestion table (getScoreRange totalScore (JSNum.fin 100)) = _
    rw [hnone, totalSuggestion_none]
  · rw [modules_getPersonalizedSuggestions table totalScore moduleScores hnd, objKeys_map_snd,
      objKeys_filter]
  · intro e he hproto
    have hget := objGet_modules_getPersonalizedSuggestions table totalScore moduleScores hnd e
      he hproto
    refine ⟨?_, ?_⟩
    · intro label hlabel
      rw [hget, hlabel, moduleSuggestion_some]
    · intro hnone
      rw [hget, hnone, moduleSuggestion_none]

theorem C10_suggestions_witness :
    (getPersonalizedSuggestions exampleTable (JSNum.fin 90)
        [("创造力", JSNum.fin 5), ("技术能力", JSNum.nan)]).total = some "keep going" ∧
    objKeys (getPersonalizedSuggestions exampleTable (JSNum.fin 90)
        [("创造力", JSNum.fin 5), ("技术能力", JSNum.nan)]).modules = ["创造力", "技术能力"] ∧
    objGet (getPersonalizedSuggestions exampleTable (JSNum.fin 90)
        [("创造力", JSNum.fin 5), ("技术能力", JSNum.nan)]).modules "创造力" =
      some (some "excellent") ∧
    objGet (getPersonalizedSuggestions exampleTable (JSNum.fin 90)
        [("创造力", JSNum.fin 5), ("技术能力", JSNum.nan)]).modules "技术能力" = some none := by
  have h := C10_suggestions exampleTable (JSNum.fin 90)
    [("创造力", JSNum.fin 5), ("技术能力", JSNum.nan)] (by simp [objKeys])
  refine ⟨?_, ?_, ?_, ?_⟩
  · have ht := h.1 "81-100" (by
      norm_num [getScoreRange, JSNum.div, JSNum.mul, JSNum.floor, JSNum.min, arrayGetNum, ranges]
      rfl)
    simpa [exampleTable, objGet] using ht
  · have hk := h.2.2.1
    simpa [objKeys] using hk
  · have hm := (h.2.2.2 ("创造力", JSNum.fin 5) (by simp) (by simp)).1 "4-5" (by
      norm_num [getScoreRange, JSNum.div, JSNum.mul, JSNum.floor, JSNum.min, arrayGetNum, ranges]
      rfl)
    simpa [exampleTable, objGet] using hm
  · have hm := (h.2.2.2 ("技术能力", JSNum.nan) (by simp) (by simp)).2 (by
      simp [getScoreRange, JSNum.div, JSNum.mul, JSNum.floor, JSNum.min, arrayGetNum])
    simpa [exampleTable, objGet] using hm

/-! ## getScoreLevel against getScoreRange -/

/-- Each of the five labels of a scale stands at its own index. -/
theorem indexOf_ranges (maxScore : JSNum) (k : ℕ) (hk : k < 5) :
    ∃ label, (ranges maxScore)[k]? = some label ∧ (ranges maxScore).indexOf label = k := by
  unfold ranges
  split_ifs <;> interval_cases k <;> exact ⟨_, rfl, by decide⟩

/-- The tier the threshold cascade selects is the clamped floor of
percentage / 20. -/
theorem indexOf_level (p : ℚ) (hp : 0 ≤ p) :
    tiers.indexOf (if 80 ≤ p then "专家" else if 60 ≤ p then "高级"
      else if 40 ≤ p then "中级" else if 20 ≤ p then "入门" else "初级") =
      (min ⌊p / 20⌋ 4).toNat := by
  have hle := Int.floor_le (p / 20)
  have hlt := Int.lt_floor_add_one (p / 20)
  have hf0 : 0 ≤ ⌊p / 20⌋ := Int.floor_nonneg.mpr (by positivity)
  have hcases : ⌊p / 20⌋ = 0 ∨ ⌊p / 20⌋ = 1 ∨ ⌊p / 20⌋ = 2 ∨ ⌊p / 20⌋ = 3 ∨ 4 ≤ ⌊p / 20⌋ := by
    omega
  rcases hcases with h | h | h | h | h
  · rw [h] at hle hlt
    push_cast at hle hlt
    rw [h, if_neg (by linarith), if_neg (by linarith), if_neg (by linarith),
      if_neg (by linarith)]
    decide
  · rw [h] at hle hlt
    push_cast at hle hlt
    rw [h, if_neg (by linarith), if_neg (by linarith), if_neg (by linarith),
      if_pos (by linarith)]
    decide
  · rw [h] at hle hlt
    push_cast at hle hlt
    rw [h, if_neg (by linarith), if_neg (by linarith), if_pos (by linarith)]
    decide
  · rw [h] at hle hlt
    push_cast at hle hlt
    rw [h, if_neg (by linarith), if_pos (by linarith)]
    decide
  · have h4 : (4 : ℚ) ≤ ((⌊p / 20⌋ : ℤ) : ℚ) := by exact_mod_cast h
    have hmin : min ⌊p / 20⌋ 4 = 4 := by omega
    rw [hmin, if_pos (by linarith)]
    decide

/-- C11: for every positive maxScore and every score >= 0, `getScoreRange`
returns a label, and the position of that label in the five-label list of the
scale equals the position of `getScoreLevel(score, maxScore)` in the tier list
初级, 入门, 中级, 高级, 专家; both positions are min(floor(percentage / 20), 4). -/
theorem C11_level_range_agree (score maxScore : ℚ) (hs : 0 ≤ score) (hm : 0 < maxScore) :
    ∃ label, getScoreRange (JSNum.fin score) (JSNum.fin maxScore) = some label ∧
      (ranges (JSNum.fin maxScore)).indexOf label =
        tiers.indexOf (getScoreLevel (JSNum.fin score) (JSNum.fin maxScore)) ∧
      tiers.indexOf (getScoreLevel (JSNum.fin score) (JSNum.fin maxScore)) =
        (min ⌊score / maxScore * 100 / 20⌋ 4).toNat ∧
      getScoreLevel (JSNum.fin score) (JSNum.fin maxScore) ∈ tiers := by
  have hp : 0 ≤ score / maxScore * 100 := by positivity
  have h0 : 0 ≤ min ⌊score / maxScore * 100 / 20⌋ 4 :=
    le_min (Int.floor_nonneg.mpr (by positivity)) (by norm_num)
  have hlt : (min ⌊score / maxScore * 100 / 20⌋ 4).toNat < 5 := by
    have h4 : min ⌊score / maxScore * 100 / 20⌋ 4 ≤ 4 := min_le_right _ _
    omega
  obtain ⟨label, hlabel, hidx⟩ := indexOf_ranges (JSNum.fin maxScore) _ hlt
  have hlevel : tiers.indexOf (getScoreLevel (JSNum.fin score) (JSNum.fin maxScore)) =
      (min ⌊score / maxScore * 100 / 20⌋ 4).toNat := by
    rw [getScoreLevel_fin score maxScore hm.ne']
    exact indexOf_level _ hp
  refine ⟨label, ?_, ?_, hlevel, ?_⟩
  · rw [getScoreRange_fin score maxScore hm.ne', arrayGetNum_intCast _ _ h0]
    exact hlabel
  · rw [hidx, hlevel]
  · rw [getScoreLevel_fin score maxScore hm.ne']
    split_ifs <;> simp [tiers]

theorem C11_level_range_agree_witness :
    ∃ label, getScoreRange (JSNum.fin 3) (JSNum.fin 5) = some label ∧
      (ranges (JSNum.fin 5)).indexOf label =
        tiers.indexOf (getScoreLevel (JSNum.fin 3) (JSNum.fin 5)) ∧
      tiers.indexOf (getScoreLevel (JSNum.fin 3) (JSNum.fin 5)) =
        (min ⌊(3 : ℚ) / 5 * 100 / 20⌋ 4).toNat ∧
      getScoreLevel (JSNum.fin 3) (JSNum.fin 5) ∈ tiers :=
  C11_level_range_agree 3 5 (by norm_num) (by norm_num)

end AssessmentSystem
